import Mathlib

/-!
Verification of the simple-profiler bootstrap (simpleprof.c) and its
diagnostic helper (eprintf.c) against their natural-language specification.

The embedding targets the LP64 platform the source is written for:
pointers and size_t are 64-bit, unsigned int is 32-bit, unsigned short has
size and alignment 2.  Machine arithmetic is modelled on Nat with explicit
reductions modulo 2^64 / 2^32 exactly where the C types wrap.
-/

namespace SimpleProf

/-- 2^64, the modulus of size_t / uintptr_t / uintmax_t arithmetic on LP64. -/
def U64 : Nat := 2 ^ 64

/-- 2^32, the modulus of unsigned int / uint32_t arithmetic. -/
def U32 : Nat := 2 ^ 32

/-- Little-endian byte image of a value stored in a w-byte field
(the in-memory representation used when structs are copied byte-wise). -/
def leBytes : Nat → Nat → List Nat
  | 0, _ => []
  | w + 1, v => v % 256 :: leBytes w (v / 256)

/-- uintptr_t subtraction a - b, wrapping modulo 2^64. -/
def sub64 (a b : Nat) : Nat := (a + (U64 - b % U64)) % U64

/-! ## Format Builder (make_gmon_header, simpleprof.c lines 109-180) -/

/-- GMON_MAGIC: the bytes of the string "gmon". -/
def gmonCookie : List Nat := [103, 109, 111, 110]

/-- struct my_gmon_hdr: cookie, version = GMON_VERSION = 1 (uint32), 12 spare bytes. -/
def ghdrBytes : List Nat := gmonCookie ++ leBytes 4 1 ++ List.replicate 12 0

/-- The 15-byte dimen field: strncpy(dimen, "seconds", 15) null-pads to the right. -/
def dimenBytes : List Nat := [115, 101, 99, 111, 110, 100, 115] ++ List.replicate 8 0

/-- struct my_hist_hdr with the given field values; dimen_abbrev is 's' (115).
low_pc/high_pc are uintptr_t (8 bytes), hist_size/prof_rate are uint32 (4 bytes). -/
def histBytes (lowpc highpc histSize profRate : Nat) : List Nat :=
  leBytes 8 lowpc ++ leBytes 8 highpc ++ leBytes 4 histSize ++ leBytes 4 profRate
    ++ dimenBytes ++ [115]

/-- make_gmon_header: gmon header, GMON_TAG_TIME_HIST (0), the dummy alignment
histogram record (low_pc 0, high_pc 0 + 65536*2/scale, hist_size 1), two bytes
of unsigned-short zero padding, a second tag byte, then the real histogram
record (low_pc, high_pc = lowpc + nsamples*(65536*2/scale), hist_size =
(uint32) nsamples).  On LP64, NEED_DUMMY_HIST_HDR is true, so the dummy record
is always emitted.  prof_rate is PROFILE_FREQUENCY(), a platform constant
passed here as a parameter. -/
def make_gmon_header (lowpc nsamples scale profRate : Nat) : List Nat :=
  ghdrBytes ++ [0]
    ++ histBytes 0 (65536 * 2 / scale) 1 profRate
    ++ List.replicate 2 0
    ++ [0]
    ++ histBytes lowpc (lowpc + nsamples * (65536 * 2 / scale)) nsamples profRate

/-- The call site in la_preinit (line 340): the header is built from
lowpc - load_addr, i.e. the link-time address of the executable segment. -/
def activationHeader (lowpc load_addr nsamples s_scale profRate : Nat) : List Nat :=
  make_gmon_header (sub64 lowpc load_addr) nsamples s_scale profRate

/-- The pc argument handed to profil(3) at line 354: the runtime address lowpc. -/
def la_profil_pc (lowpc : Nat) : Nat := lowpc % U64

/-! ## Header size macros (lines 116-124), parameterized by pointer size -/

/-- sizeof(struct gmon_hdr): 4 + 4 + 12 bytes on every supported platform. -/
def sizeofGmonHdr : Nat := 20

/-- sizeof(struct gmon_hist_hdr): two pointers plus 4 + 4 + 15 + 1 bytes. -/
def sizeofHistHdr (ptrSize : Nat) : Nat := 2 * ptrSize + 24

/-- sizeof(unsigned short). -/
def sizeofShort : Nat := 2

/-- alignof(unsigned short). -/
def alignofShort : Nat := 2

/-- BASE_HEADER_SIZE = sizeof(struct gmon_hdr) + 1 + sizeof(struct gmon_hist_hdr). -/
def baseHeaderSize (ptrSize : Nat) : Nat := sizeofGmonHdr + 1 + sizeofHistHdr ptrSize

/-- NEED_DUMMY_HIST_HDR = BASE_HEADER_SIZE % alignof(unsigned short) != 0. -/
def needDummyHistHdr (ptrSize : Nat) : Bool := baseHeaderSize ptrSize % alignofShort ≠ 0

/-- HEADER_SIZE macro. -/
def headerSize (ptrSize : Nat) : Nat :=
  if needDummyHistHdr ptrSize then
    baseHeaderSize ptrSize + sizeofShort + 1 + sizeofHistHdr ptrSize
  else baseHeaderSize ptrSize

/-! ## Buffer Sizer (la_preinit lines 274-284, LP64)

  __builtin_mul_overflow((memsz + 1) / 2, s_scale, &nsamples_tmp) ||
  (nsamples = nsamples_tmp / 65536) != nsamples_tmp / 65536 ||          -- no-op on LP64
  __builtin_mul_overflow(nsamples, sizeof(unsigned short), &bufsiz) ||
  __builtin_add_overflow(bufsiz, HEADER_SIZE, &mapsiz)

memsz + 1 is evaluated in size_t arithmetic first and wraps modulo 2^64
without any check; the three builtins check their exact results against
the 64-bit range.  The size_t narrowing check on line 277 can never fire
on LP64 (size_t = uintmax_t) and is omitted. -/

def bufferSizer (memsz s_scale : Nat) : Option (Nat × Nat × Nat) :=
  if ((memsz + 1) % U64) / 2 * s_scale < U64 then
    if ((memsz + 1) % U64) / 2 * s_scale / 65536 * sizeofShort < U64 then
      if ((memsz + 1) % U64) / 2 * s_scale / 65536 * sizeofShort + headerSize 8 < U64 then
        some (((memsz + 1) % U64) / 2 * s_scale / 65536,
          ((memsz + 1) % U64) / 2 * s_scale / 65536 * sizeofShort,
          ((memsz + 1) % U64) / 2 * s_scale / 65536 * sizeofShort + headerSize 8)
      else none
    else none
  else none

/-! ## Segment Locator (la_preinit lines 195-249) -/

/-- The fields of ElfW(Phdr) that the walk reads. -/
structure Phdr where
  p_type : Nat
  p_flags : Nat
  p_vaddr : Nat
  p_memsz : Nat
deriving DecidableEq

def PT_LOAD : Nat := 1

def PT_PHDR : Nat := 6

/-- sizeof(ElfW(Phdr)) on LP64. -/
def sizeofPhdr : Nat := 56

/-- PT_LOAD segment with PF_X (bit 0 of p_flags) set and nonzero p_memsz. -/
def isXSeg (ph : Phdr) : Bool :=
  (ph.p_type == PT_LOAD) && (ph.p_flags % 2 == 1) && (ph.p_memsz != 0)

/-- The program-header walk (lines 219-240): a PT_PHDR entry resets the probed
load bias to (address of table) - p_vaddr; the first executable PT_LOAD stops
the walk yielding (bias, bias + p_vaddr, p_memsz). -/
def findSeg (phdrAddr : Nat) : Nat → List Phdr → Option (Nat × Nat × Nat)
  | _, [] => none
  | loadAddr, ph :: rest =>
    if ph.p_type = PT_PHDR then findSeg phdrAddr (sub64 phdrAddr ph.p_vaddr) rest
    else if isXSeg ph then some (loadAddr, (loadAddr + ph.p_vaddr) % U64, ph.p_memsz)
    else findSeg phdrAddr loadAddr rest

/-- The load bias the walk has accumulated after scanning a prefix ys:
the PT_PHDR-derived bias of the last PT_PHDR entry in ys, if any. -/
def biasFrom (phdrAddr loadAddr : Nat) (ys : List Phdr) : Nat :=
  ys.foldl (fun acc ph => if ph.p_type = PT_PHDR then sub64 phdrAddr ph.p_vaddr else acc)
    loadAddr

/-- The segment-locator stage of la_preinit: AT_PHENT / AT_PHNUM / AT_PHDR
checks (lines 197-212), the walk, and the l_addr consistency check
(lines 242-249).  Arguments mirror the auxv values and the link_map l_addr;
table is the program header table the address points at. -/
def la_locate (phent phnum phdrAddr lAddr : Nat) (table : List Phdr) : Option (Nat × Nat) :=
  if phent ≠ 0 ∧ phent ≠ sizeofPhdr then none
  else if phnum = 0 ∨ U32 ≤ phnum then none
  else if phdrAddr = 0 then none
  else
    match findSeg phdrAddr 0 (table.take phnum) with
    | none => none
    | some (la, lowpc, msz) => if lAddr ≠ la then none else some (lowpc, msz)

/-- A small well-formed program header table used to exercise the locator:
a PT_PHDR entry at virtual address 0x40 and an executable PT_LOAD segment
(flags PF_R|PF_X = 5) of 8192 bytes at virtual address 0x1000, with the
table mapped at runtime address 0x400040 (so the probed bias is 0x400000). -/
def demoTable : List Phdr :=
  [{ p_type := 6, p_flags := 4, p_vaddr := 64, p_memsz := 0 },
   { p_type := 1, p_flags := 5, p_vaddr := 4096, p_memsz := 8192 }]

/-! ## Target Selector (match_program_name, lines 75-107)

fnmatch(3) with FNM_PATHNAME is an external libc collaborator; the selector is
parameterized over it as a Boolean function of (pattern, string).  Strings are
lists of characters; the model assumes AT_EXECFN is present (execfn non-null),
the case the claim describes, so retval = basename(execfn).
program_invocation_short_name is the basename of the argv[0]-derived
program_invocation_name. -/

/-- strtok_r(envcopy, ":", ...): the maximal nonempty runs between colons. -/
def splitColon : List Char → List Char → List (List Char)
  | acc, [] => [acc.reverse]
  | acc, c :: rest =>
    if c = ':' then acc.reverse :: splitColon [] rest else splitColon (c :: acc) rest

def tokensOf (e : List Char) : List (List Char) :=
  (splitColon [] e).filter (fun t => t ≠ [])

/-- GNU basename (string.h): the suffix after the last slash. -/
def gnuBasename : List Char → List Char
  | [] => []
  | c :: rest => if c = '/' ∨ '/' ∈ rest then gnuBasename rest else c :: rest

/-- One iteration of the pattern loop: a pattern containing a slash is
matched against execfn and program_invocation_name, otherwise against
their basenames. -/
def patMatches (fnm : List Char → List Char → Bool) (execfn invName p : List Char) : Bool :=
  if '/' ∈ p then fnm p execfn || fnm p invName
  else fnm p (gnuBasename execfn) || fnm p (gnuBasename invName)

/-- The strtok_r loop: first matching pattern returns retval. -/
def selectTok (fnm : List Char → List Char → Bool) (execfn invName retval : List Char) :
    List (List Char) → Option (List Char)
  | [] => none
  | p :: ps =>
    if patMatches fnm execfn invName p then some retval
    else selectTok fnm execfn invName retval ps

/-- match_program_name: absent SP_PROFILE means disabled (none). -/
def match_program_name (fnm : List Char → List Char → Bool) (env : Option (List Char))
    (execfn invName : List Char) : Option (List Char) :=
  match env with
  | none => none
  | some e => selectTok fnm execfn invName (gnuBasename execfn) (tokensOf e)

/-- A trivially correct stand-in matcher (pattern equals string) used to
exercise the selector at concrete inputs. -/
def eqFnm : List Char → List Char → Bool := fun p s => p == s

/-! ## Scale override parsing (la_preinit lines 258-272)

sscanf(env, "%u %c", &scale, dummy) != 1 || scale == 0 ||
(s_scale = SCALE_1_TO_1 * sizeof(unsigned short) / scale) == 0  =>  abort.

The sscanf model follows POSIX/glibc semantics of "%u" (leading whitespace
skipped, optional sign applied by unsigned wraparound, strtoul clamping at
ULONG_MAX, truncation to unsigned int on store) followed by a whitespace
directive and "%c"; the call returns 1 exactly when the number converts and
no non-whitespace character follows. -/

def isScanfWs (c : Nat) : Bool := (c == 32) || (9 ≤ c && c ≤ 13)

def dropWsL : List Nat → List Nat
  | [] => []
  | c :: rest => if isScanfWs c then dropWsL rest else c :: rest

def isDigitByte (c : Nat) : Bool := 48 ≤ c && c ≤ 57

def digitsVal (ds : List Nat) : Nat := ds.foldl (fun a c => a * 10 + (c - 48)) 0

/-- The %u conversion: returns the stored unsigned int and the rest of the
input, or none on matching failure. -/
def scanfU (cs : List Nat) : Option (Nat × List Nat) :=
  let cs1 := dropWsL cs
  let neg := cs1.headD 0 == 45
  let cs2 := if cs1.headD 0 = 45 ∨ cs1.headD 0 = 43 then cs1.tail else cs1
  let ds := cs2.takeWhile isDigitByte
  let rest := cs2.dropWhile isDigitByte
  if ds = [] then none
  else
    let m := min (digitsVal ds) (U64 - 1)
    let uv := if neg then (U64 - m % U64) % U64 else m
    some (uv % U32, rest)

/-- sscanf(env, "%u %c", ...) == 1: the parsed scale, or none when the call
does not return 1 (no number, or trailing non-whitespace garbage). -/
def sscanfScale (cs : List Nat) : Option Nat :=
  match scanfU cs with
  | none => none
  | some (v, rest) => if dropWsL rest = [] then some v else none

/-- The whole SP_SCALE override check: some s_scale to use, none = abort. -/
def scaleOverride (cs : List Nat) : Option Nat :=
  match sscanfScale cs with
  | none => none
  | some scale =>
    if scale = 0 then none
    else if 65536 * sizeofShort / scale = 0 then none
    else some (65536 * sizeofShort / scale)

/-- A positive integer with no trailing garbage, following the
specification text for the scale override (spec-side comparator). -/
def specPosIntValue (cs : List Nat) : Option Nat :=
  if cs ≠ [] ∧ cs.all isDigitByte = true ∧ digitsVal cs ≠ 0 then some (digitsVal cs)
  else none

/-! ## Profile Store + Sampling Activator (la_preinit lines 302-360)

The store phase is modelled as a pure function of an oracle giving the
outcomes of the system calls, producing the activation outcome and the
ordered trace of externally visible actions. -/

/-- Outcomes of the system calls the store phase performs. -/
structure StoreOracle where
  fstatOk : Bool
  fileSize : Nat
  fileBytes : List Nat
  fallocOk : Bool
  mmapOk : Bool
  profilOk : Bool

/-- Externally visible actions of the store phase, in program order. -/
inductive StoreEv where
  | close
  | falloc
  | mmapEv
  | writeHeader
  | profilEv
  | munmapEv
  | diagFstat
  | diagFalloc
  | diagMmap
  | diagSizeMismatch
  | diagHeaderMismatch
  | diagProfil
deriving DecidableEq

/-- The store phase after a successful open(2): fstat; for a zero-size file
posix_fallocate then mmap then header write; for a pre-existing file the
exact-size check, mmap, and the byte-for-byte header comparison; finally
profil(2).  Every failure closes the descriptor; failures after a
successful mmap also munmap.  Returns (sampling active?, action trace). -/
def profileStoreRun (o : StoreOracle) (mapsiz : Nat) (header : List Nat) :
    Bool × List StoreEv :=
  if o.fstatOk = false then (false, [StoreEv.diagFstat, StoreEv.close])
  else if o.fileSize = 0 then
    if o.fallocOk = false then (false, [StoreEv.falloc, StoreEv.diagFalloc, StoreEv.close])
    else if o.mmapOk = false then (false, [StoreEv.falloc, StoreEv.diagMmap, StoreEv.close])
    else if o.profilOk = false then
      (false, [StoreEv.falloc, StoreEv.mmapEv, StoreEv.close, StoreEv.writeHeader,
               StoreEv.profilEv, StoreEv.diagProfil, StoreEv.munmapEv])
    else (true, [StoreEv.falloc, StoreEv.mmapEv, StoreEv.close, StoreEv.writeHeader,
                 StoreEv.profilEv])
  else if o.fileSize ≠ mapsiz then (false, [StoreEv.diagSizeMismatch, StoreEv.close])
  else if o.mmapOk = false then (false, [StoreEv.diagMmap, StoreEv.close])
  else if o.fileBytes.take header.length ≠ header then
    (false, [StoreEv.mmapEv, StoreEv.close, StoreEv.diagHeaderMismatch, StoreEv.munmapEv])
  else if o.profilOk = false then
    (false, [StoreEv.mmapEv, StoreEv.close, StoreEv.profilEv, StoreEv.diagProfil,
             StoreEv.munmapEv])
  else (true, [StoreEv.mmapEv, StoreEv.close, StoreEv.profilEv])

/-! ## Diagnostic sink string escaping (my_strvis, eprintf.c lines 65-155)

Modelled over byte lists; src is the byte content of the C string up to
(not including) its terminator, reads beyond it yield the terminator 0.
dstP says whether dst is non-null (writing mode); the store list records
every (offset, byte) store the call performs, including the ones the C
code performs without the if (dst) guard. -/

/-- strchr(CTRL1 "\0" CTRL2, c): the escape letter paired with a control
character, following the CTRL1 / CTRL2 tables. -/
def escPair (c : Nat) : Option Nat :=
  if c = 34 then some 34
  else if c = 92 then some 92
  else if c = 7 then some 97
  else if c = 8 then some 98
  else if c = 12 then some 102
  else if c = 10 then some 110
  else if c = 13 then some 114
  else if c = 9 then some 116
  else if c = 11 then some 118
  else none

/-- ISOCTAL on the (unsigned char) lookahead byte. -/
def isOctDigit (c : Nat) : Bool := 48 ≤ c && c < 56

/-- One loop body iteration given the current byte c (already truncated to
unsigned char), the lookahead condition (maxlen != 1 && ISOCTAL(*src)), the
current output position n: the new position and the stores performed. -/
def visStep (dstP : Bool) (c : Nat) (lookOct : Bool) (n : Nat) : Nat × List (Nat × Nat) :=
  match escPair c with
  | some e => (n + 2, if dstP then [(n, 92), (n + 1, e)] else [])
  | none =>
    if c < 32 ∨ 127 ≤ c then
      let st0 : List (Nat × Nat) := if dstP then [(n, 92)] else []
      let r1 : Nat × List (Nat × Nat) :=
        if 64 ≤ c ∨ lookOct = true then
          (n + 2, st0 ++ (if dstP then [(n + 1, 48 + c / 64)] else []))
        else (n + 1, st0)
      let r2 : Nat × List (Nat × Nat) :=
        if 8 ≤ c ∨ lookOct = true then
          (r1.1 + 1, r1.2 ++ (if dstP then [(r1.1, 48 + c / 8 % 8)] else []))
        else r1
      (r2.1 + 1, r2.2 ++ (if dstP then [(r2.1, 48 + c % 8)] else []))
    else (n + 1, if dstP then [(n, c)] else [])

/-- The main for(;;) loop: fuel is the current maxlen value; returns the final
position, the stores, the unconsumed source, and the final maxlen. -/
def visLoop (dstP bin : Bool) : Nat → List Nat → Nat → Nat × List (Nat × Nat) × List Nat × Nat
  | 0, src, n => (n, [], src, 0)
  | fuel + 1, src, n =>
    let c := src.headD 0 % 256
    if c = 0 ∧ bin = false then (n, [], src, fuel + 1)
    else
      let rest := src.tail
      let look : Bool := (fuel != 0) && isOctDigit (rest.headD 0 % 256)
      let r := visStep dstP c look n
      if fuel = 0 then (r.1, r.2, rest, 0)
      else
        let r2 := visLoop dstP bin fuel rest r.1
        (r2.1, r.2 ++ r2.2.1, r2.2.2.1, r2.2.2.2)

/-- my_strvis(dst, src, binary, maxlen): the returned length and the list of
stores performed.  src = none is a NULL source (strcpy(dst, "NULL") stores
five bytes including the terminator when dst is non-null, and 4 is
returned).  The opening and closing quotes and every loop-body store are
guarded by if (dst); the "..." truncation suffix at lines 147-153 is not. -/
def my_strvis (dstP bin : Bool) (src : Option (List Nat)) (maxlen : Nat) :
    Nat × List (Nat × Nat) :=
  match src with
  | none => (4, if dstP then [(0, 78), (1, 85), (2, 76), (3, 76), (4, 0)] else [])
  | some s =>
    let st0 : List (Nat × Nat) := if dstP then [(0, 34)] else []
    let r := if 0 < maxlen then visLoop dstP bin maxlen s 1 else (1, [], s, 0)
    let n1 := r.1
    let st1 := r.2.1
    let rest := r.2.2.1
    let fl := r.2.2.2
    let st2 : List (Nat × Nat) := if dstP then [(n1, 34)] else []
    if bin = false ∧ fl = 0 ∧ rest.headD 0 % 256 ≠ 0 then
      (n1 + 1 + 3, st0 ++ st1 ++ st2 ++ [(n1 + 1, 46), (n1 + 2, 46), (n1 + 3, 46)])
    else (n1 + 1, st0 ++ st1 ++ st2)

/-! ## Byte-list lemmas -/

theorem leBytes_length (w v : Nat) : (leBytes w v).length = w := by
  induction w generalizing v with
  | zero => rfl
  | succ w ih => simp [leBytes, ih]

theorem leBytes_eq_iff (w a b : Nat) :
    leBytes w a = leBytes w b ↔ a % 256 ^ w = b % 256 ^ w := by
  induction w generalizing a b with
  | zero => simp [leBytes, Nat.mod_one]
  | succ w ih =>
    have e : ∀ m : Nat, m % 256 ^ (w + 1) = m % 256 + 256 * (m / 256 % 256 ^ w) := by
      intro m
      rw [pow_succ, mul_comm (256 ^ w) 256, Nat.mod_mul]
    constructor
    · intro h
      have h1 : a % 256 = b % 256 := by
        simpa [leBytes] using congrArg (fun t => t.headD 0) h
      have h2 : leBytes w (a / 256) = leBytes w (b / 256) := by
        simpa [leBytes] using congrArg (fun t => t.tail) h
      rw [e a, e b, h1, (ih _ _).mp h2]
    · intro h
      rw [e a, e b] at h
      have ha : a % 256 < 256 := Nat.mod_lt _ (by norm_num)
      have hb : b % 256 < 256 := Nat.mod_lt _ (by norm_num)
      have h1 : a % 256 = b % 256 := by omega
      have h2 : a / 256 % 256 ^ w = b / 256 % 256 ^ w := by omega
      simp [leBytes, h1, (ih _ _).mpr h2]

theorem ghdr_append_tag_length : (ghdrBytes ++ [0]).length = 21 := by
  simp [ghdrBytes, gmonCookie, leBytes_length]

theorem histBytes_length (a b c d : Nat) : (histBytes a b c d).length = 40 := by
  simp [histBytes, dimenBytes, leBytes_length]

/-! ## Slices of the built header -/

theorem hdr_drop21 (l n s r : Nat) :
    (make_gmon_header l n s r).drop 21 =
      histBytes 0 (65536 * 2 / s) 1 r ++
        (List.replicate 2 0 ++ ([0] ++
          histBytes l (l + n * (65536 * 2 / s)) n r)) := by
  have h : make_gmon_header l n s r =
      (ghdrBytes ++ [0]) ++
        (histBytes 0 (65536 * 2 / s) 1 r ++
          (List.replicate 2 0 ++ ([0] ++
            histBytes l (l + n * (65536 * 2 / s)) n r))) := by
    simp [make_gmon_header, List.append_assoc]
  rw [h, List.drop_left' ghdr_append_tag_length]

theorem hdr_slice_dummy (l n s r : Nat) :
    ((make_gmon_header l n s r).drop 21).take 40 = histBytes 0 (65536 * 2 / s) 1 r := by
  rw [hdr_drop21, List.take_left' (histBytes_length _ _ _ _)]

theorem hdr_slice_dummy_high (l n s r : Nat) :
    ((make_gmon_header l n s r).drop 29).take 8 = leBytes 8 (65536 * 2 / s) := by
  have h : (make_gmon_header l n s r).drop 29 = ((make_gmon_header l n s r).drop 21).drop 8 := by
    rw [List.drop_drop]
  rw [h, hdr_drop21]
  have h2 : histBytes 0 (65536 * 2 / s) 1 r ++
      (List.replicate 2 0 ++ ([0] ++ histBytes l (l + n * (65536 * 2 / s)) n r)) =
      leBytes 8 0 ++ (leBytes 8 (65536 * 2 / s) ++
        (leBytes 4 1 ++ leBytes 4 r ++ dimenBytes ++ [115] ++
          (List.replicate 2 0 ++ ([0] ++ histBytes l (l + n * (65536 * 2 / s)) n r)))) := by
    simp [histBytes, List.append_assoc]
  rw [h2, List.drop_left' (leBytes_length 8 0), List.take_left' (leBytes_length 8 _)]

theorem hdr_drop64 (l n s r : Nat) :
    (make_gmon_header l n s r).drop 64 = histBytes l (l + n * (65536 * 2 / s)) n r := by
  have h : make_gmon_header l n s r =
      (ghdrBytes ++ [0] ++ histBytes 0 (65536 * 2 / s) 1 r ++ List.replicate 2 0 ++ [0]) ++
        histBytes l (l + n * (65536 * 2 / s)) n r := by
    simp [make_gmon_header, List.append_assoc]
  have hl : (ghdrBytes ++ [0] ++ histBytes 0 (65536 * 2 / s) 1 r ++
      List.replicate 2 0 ++ [0]).length = 64 := by
    simp [ghdrBytes, gmonCookie, histBytes, dimenBytes, leBytes_length]
  rw [h, List.drop_left' hl]

theorem hdr_slice_low (l n s r : Nat) :
    ((make_gmon_header l n s r).drop 64).take 8 = leBytes 8 l := by
  rw [hdr_drop64]
  have h : histBytes l (l + n * (65536 * 2 / s)) n r =
      leBytes 8 l ++ (leBytes 8 (l + n * (65536 * 2 / s)) ++
        (leBytes 4 n ++ leBytes 4 r ++ dimenBytes ++ [115])) := by
    simp [histBytes, List.append_assoc]
  rw [h, List.take_left' (leBytes_length 8 l)]

theorem hdr_slice_high (l n s r : Nat) :
    ((make_gmon_header l n s r).drop 72).take 8 = leBytes 8 (l + n * (65536 * 2 / s)) := by
  have h : (make_gmon_header l n s r).drop 72 = ((make_gmon_header l n s r).drop 64).drop 8 := by
    rw [List.drop_drop]
  rw [h, hdr_drop64]
  have h2 : histBytes l (l + n * (65536 * 2 / s)) n r =
      leBytes 8 l ++ (leBytes 8 (l + n * (65536 * 2 / s)) ++
        (leBytes 4 n ++ leBytes 4 r ++ dimenBytes ++ [115])) := by
    simp [histBytes, List.append_assoc]
  rw [h2, List.drop_left' (leBytes_length 8 l), List.take_left' (leBytes_length 8 _)]

theorem hdr_slice_size (l n s r : Nat) :
    ((make_gmon_header l n s r).drop 80).take 4 = leBytes 4 n := by
  have h : (make_gmon_header l n s r).drop 80 = ((make_gmon_header l n s r).drop 64).drop 16 := by
    rw [List.drop_drop]
  rw [h, hdr_drop64]
  have h2 : histBytes l (l + n * (65536 * 2 / s)) n r =
      (leBytes 8 l ++ leBytes 8 (l + n * (65536 * 2 / s))) ++
        (leBytes 4 n ++ (leBytes 4 r ++ dimenBytes ++ [115])) := by
    simp [histBytes, List.append_assoc]
  have hl : (leBytes 8 l ++ leBytes 8 (l + n * (65536 * 2 / s))).length = 16 := by
    simp [leBytes_length]
  rw [h2, List.drop_left' hl, List.take_left' (leBytes_length 4 n)]

theorem pow256_8 : (256 : Nat) ^ 8 = U64 := by norm_num [U64]

theorem pow256_4 : (256 : Nat) ^ 4 = U32 := by norm_num [U32]

/-! ## Claim theorems -/

/-- C3 counterexample: in a bootstrap run with nonzero load bias (here
lowpc = 0x5000, load bias 0x1000) the real histogram record's low_pc field
holds the link-time address 0x4000, not the runtime address 0x5000 that is
handed to profil(3), so the claim as stated is false. -/
theorem header_lowpc_differs_from_profil :
    ((activationHeader 20480 4096 1 32768 100).drop 64).take 8 ≠
      leBytes 8 (la_profil_pc 20480) := by decide

/-- C3 (amended): for every bootstrap run reaching sampling activation, the
real histogram record's low_pc field holds the sampler's start address minus
the load bias (the link-time address, modulo 2^64), and its high_pc field
holds that stored low_pc plus sample_count * (65536 * 2 / scale), modulo
2^64; the two coincide with the sampled runtime range only when the load
bias is zero. -/
theorem header_records_biased_range (lowpc load_addr nsamples s_scale profRate : Nat) :
    ((activationHeader lowpc load_addr nsamples s_scale profRate).drop 64).take 8 =
        leBytes 8 (sub64 lowpc load_addr) ∧
      ((activationHeader lowpc load_addr nsamples s_scale profRate).drop 72).take 8 =
        leBytes 8 (sub64 lowpc load_addr + nsamples * (65536 * 2 / s_scale)) := by
  exact ⟨hdr_slice_low _ _ _ _, hdr_slice_high _ _ _ _⟩

/-- C4 counterexample: two headers built with identical low_pc and
sample_count but different scales (32768 vs 65536) differ inside the
placeholder descriptor record (its high_pc field is 65536*2/scale), so the
placeholder's fields are not independent of the bootstrap inputs. -/
theorem dummy_record_depends_on_scale :
    ((make_gmon_header 0 0 32768 100).drop 21).take 40 ≠
      ((make_gmon_header 0 0 65536 100).drop 21).take 40 := by decide

/-- C4 (amended): the built header always places the sample array at an
offset that is a multiple of the platform alignment of the sample element
type, and the placeholder record is included iff the natural header size is
not a multiple of that alignment; but the placeholder is not fully inert:
its bytes are those of a histogram record with low_pc 0 and hist_size 1
whose high_pc field equals 65536*2/scale (varying with the scale input) and
whose sample-rate field holds the platform tick frequency. -/
theorem header_alignment_spec (p l n s r : Nat) :
    headerSize p % alignofShort = 0 ∧
      (needDummyHistHdr p = true ↔ baseHeaderSize p % alignofShort ≠ 0) ∧
      ((make_gmon_header l n s r).drop 21).take 40 = histBytes 0 (65536 * 2 / s) 1 r := by
  refine ⟨?_, ?_, hdr_slice_dummy l n s r⟩
  · have hbase : baseHeaderSize p = 2 * p + 45 := by
      simp [baseHeaderSize, sizeofGmonHdr, sizeofHistHdr]
      omega
    have hneed : needDummyHistHdr p = true := by
      simp [needDummyHistHdr, alignofShort, hbase]
      omega
    simp [headerSize, hneed, hbase, sizeofShort, sizeofHistHdr, alignofShort]
    omega
  · simp [needDummyHistHdr]

/-- C5 counterexample: the header builder is not injective: the input
triples (0, 0, 50000) and (0, 0, 60000) differ in the scale component yet
produce byte-identical headers (both scales have 65536*2/scale = 2). -/
theorem make_gmon_header_not_injective :
    make_gmon_header 0 0 50000 100 = make_gmon_header 0 0 60000 100 ∧
      (50000 : Nat) ≠ 60000 := by
  exact ⟨by decide, by decide⟩

/-- C5 (amended): the header builder is a pure function and, for a fixed
sample rate, two input triples produce byte-identical headers if and only if
they agree on low_pc mod 2^64, on sample_count mod 2^32, on 65536*2/scale
mod 2^64 and on (low_pc + sample_count * (65536*2/scale)) mod 2^64; changing
an input changes the output only through these four derived values, so
distinct triples (e.g. distinct scales with equal 65536*2/scale) can
collide. -/
theorem make_gmon_header_eq_iff (l n s r l' n' s' : Nat) :
    make_gmon_header l n s r = make_gmon_header l' n' s' r ↔
      ((65536 * 2 / s) % U64 = (65536 * 2 / s') % U64 ∧
        l % U64 = l' % U64 ∧
        (l + n * (65536 * 2 / s)) % U64 = (l' + n' * (65536 * 2 / s')) % U64 ∧
        n % U32 = n' % U32) := by
  constructor
  · intro h
    refine ⟨?_, ?_, ?_, ?_⟩
    · have hs := congrArg (fun t => (List.drop 29 t).take 8) h
      simp only [hdr_slice_dummy_high] at hs
      have := (leBytes_eq_iff 8 _ _).mp hs
      rwa [pow256_8] at this
    · have hs := congrArg (fun t => (List.drop 64 t).take 8) h
      simp only [hdr_slice_low] at hs
      have := (leBytes_eq_iff 8 _ _).mp hs
      rwa [pow256_8] at this
    · have hs := congrArg (fun t => (List.drop 72 t).take 8) h
      simp only [hdr_slice_high] at hs
      have := (leBytes_eq_iff 8 _ _).mp hs
      rwa [pow256_8] at this
    · have hs := congrArg (fun t => (List.drop 80 t).take 4) h
      simp only [hdr_slice_size] at hs
      have := (leBytes_eq_iff 4 _ _).mp hs
      rwa [pow256_4] at this
  · rintro ⟨h1, h2, h3, h4⟩
    have e1 : leBytes 8 (65536 * 2 / s) = leBytes 8 (65536 * 2 / s') :=
      (leBytes_eq_iff 8 _ _).mpr (by rw [pow256_8]; exact h1)
    have e2 : leBytes 8 l = leBytes 8 l' :=
      (leBytes_eq_iff 8 _ _).mpr (by rw [pow256_8]; exact h2)
    have e3 : leBytes 8 (l + n * (65536 * 2 / s)) =
        leBytes 8 (l' + n' * (65536 * 2 / s')) :=
      (leBytes_eq_iff 8 _ _).mpr (by rw [pow256_8]; exact h3)
    have e4 : leBytes 4 n = leBytes 4 n' :=
      (leBytes_eq_iff 4 _ _).mpr (by rw [pow256_4]; exact h4)
    simp only [make_gmon_header, histBytes]
    rw [e1, e2, e3, e4]

/-- C2 counterexample: at mem_size = 2^64 - 1 the addition mem_size + 1
overflows the size type (it wraps to 0), yet the buffer sizer does not
abort: it silently computes sample_count 0 and proceeds with a
header-only mapping, contradicting the claim that any overflowing
addition aborts the bootstrap. -/
theorem bufferSizer_unchecked_wrap :
    U64 ≤ (U64 - 1) + 1 ∧ bufferSizer (U64 - 1) 32768 = some (0, 0, headerSize 8) := by
  exact ⟨by decide, by decide⟩

/-- C2 (amended): for every pair (mem_size, scale) with mem_size + 1 below
2^64, if the checked multiplication floor((mem_size+1)/2) * scale does not
overflow 2^64 then the sizer yields sample_count =
floor(floor((mem_size+1)/2) * scale / 65536), raw_buffer_size =
sample_count * sizeof(unsigned short) and total_mapped_size = raw size +
HEADER_SIZE (the two remaining checked operations can then never overflow
on LP64), and if that multiplication does overflow the sizer aborts; the
increment mem_size + 1 itself is unchecked and wraps modulo 2^64. -/
theorem bufferSizer_checked_spec (memsz s_scale : Nat) (h : memsz + 1 < U64) :
    ((memsz + 1) / 2 * s_scale < U64 →
        bufferSizer memsz s_scale =
          some ((memsz + 1) / 2 * s_scale / 65536,
            (memsz + 1) / 2 * s_scale / 65536 * sizeofShort,
            (memsz + 1) / 2 * s_scale / 65536 * sizeofShort + headerSize 8)) ∧
      (U64 ≤ (memsz + 1) / 2 * s_scale → bufferSizer memsz s_scale = none) := by
  have hm : (memsz + 1) % U64 = memsz + 1 := Nat.mod_eq_of_lt h
  have hU : U64 = 18446744073709551616 := by norm_num [U64]
  have hH : headerSize 8 = 104 := by decide
  constructor
  · intro hlt
    have hns : (memsz + 1) / 2 * s_scale / 65536 < 281474976710656 := by
      apply Nat.div_lt_of_lt_mul
      calc (memsz + 1) / 2 * s_scale < U64 := hlt
        _ = 65536 * 281474976710656 := by rw [hU]
    have c2 : (memsz + 1) / 2 * s_scale / 65536 * sizeofShort < U64 := by
      simp only [sizeofShort, hU]
      omega
    have c3 : (memsz + 1) / 2 * s_scale / 65536 * sizeofShort + headerSize 8 < U64 := by
      simp only [sizeofShort, hU, hH]
      omega
    simp only [bufferSizer, hm]
    rw [if_pos hlt, if_pos c2, if_pos c3]
  · intro hge
    simp only [bufferSizer, hm]
    rw [if_neg (by omega)]

/-- C2 witness: the spec's end-to-end example: mem_size 65536 with the
default scale 32768 yields sample_count 16384, raw buffer 32768 bytes and
a total mapped size of 32872 bytes. -/
theorem bufferSizer_checked_witness :
    (65536 : Nat) + 1 < U64 ∧ (65536 + 1) / 2 * 32768 < U64 ∧
      bufferSizer 65536 32768 = some (16384, 32768, 32872) := by
  refine ⟨by decide, by decide, ?_⟩
  exact (bufferSizer_checked_spec 65536 32768 (by decide)).1 (by decide)

/-! ## Segment locator lemmas -/

theorem isXSeg_of_phdrEntry (ph : Phdr) (h : ph.p_type = PT_PHDR) : isXSeg ph = false := by
  simp [isXSeg, h, PT_PHDR, PT_LOAD]

theorem findSeg_none_iff (a : Nat) (xs : List Phdr) :
    ∀ l, findSeg a l xs = none ↔ ∀ ph ∈ xs, isXSeg ph = false := by
  induction xs with
  | nil => intro l; simp [findSeg]
  | cons ph rest ih =>
    intro l
    by_cases hp : ph.p_type = PT_PHDR
    · simp [findSeg, hp, ih, isXSeg_of_phdrEntry ph hp]
    · by_cases hx : isXSeg ph
      · simp [findSeg, hp, hx]
      · have hx' : isXSeg ph = false := by simpa using hx
        simp [findSeg, hp, hx', ih]

theorem findSeg_first (a : Nat) (ys : List Phdr) :
    ∀ (l : Nat) (ph : Phdr) (zs : List Phdr),
      (∀ y ∈ ys, isXSeg y = false) → isXSeg ph = true →
      findSeg a l (ys ++ ph :: zs) =
        some (biasFrom a l ys, (biasFrom a l ys + ph.p_vaddr) % U64, ph.p_memsz) := by
  induction ys with
  | nil =>
    intro l ph zs _ hx
    have hp : ¬ ph.p_type = PT_PHDR := by
      intro hc
      rw [isXSeg_of_phdrEntry ph hc] at hx
      cases hx
    simp [findSeg, hp, hx, biasFrom]
  | cons y ys ih =>
    intro l ph zs hclean hx
    have hy : isXSeg y = false := hclean y (by simp)
    have hrest : ∀ y' ∈ ys, isXSeg y' = false := fun y' h' => hclean y' (by simp [h'])
    by_cases hp : y.p_type = PT_PHDR
    · have hstep : findSeg a l ((y :: ys) ++ ph :: zs) =
          findSeg a (sub64 a y.p_vaddr) (ys ++ ph :: zs) := by
        simp [findSeg, hp]
      rw [hstep, ih _ ph zs hrest hx]
      simp [biasFrom, hp]
    · have hstep : findSeg a l ((y :: ys) ++ ph :: zs) = findSeg a l (ys ++ ph :: zs) := by
        simp [findSeg, hp, hy]
      rw [hstep, ih _ ph zs hrest hx]
      simp [biasFrom, hp]

theorem first_decomp_unique (ys : List Phdr) :
    ∀ (ph : Phdr) (zs ys' : List Phdr) (ph' : Phdr) (zs' : List Phdr),
      ys ++ ph :: zs = ys' ++ ph' :: zs' →
      (∀ y ∈ ys, isXSeg y = false) → isXSeg ph = true →
      (∀ y ∈ ys', isXSeg y = false) → isXSeg ph' = true →
      ys = ys' ∧ ph = ph' ∧ zs = zs' := by
  induction ys with
  | nil =>
    intro ph zs ys' ph' zs' heq _ hx hclean' hx'
    cases ys' with
    | nil =>
      simp only [List.nil_append, List.cons.injEq] at heq
      exact ⟨rfl, heq.1, heq.2⟩
    | cons y' t' =>
      simp only [List.nil_append, List.cons_append, List.cons.injEq] at heq
      have hy' : isXSeg y' = false := hclean' y' (by simp)
      rw [← heq.1, hx] at hy'
      cases hy'
  | cons y t ih =>
    intro ph zs ys' ph' zs' heq hclean hx hclean' hx'
    cases ys' with
    | nil =>
      simp only [List.cons_append, List.nil_append, List.cons.injEq] at heq
      have hy : isXSeg y = false := hclean y (by simp)
      rw [heq.1, hx'] at hy
      cases hy
    | cons y' t' =>
      simp only [List.cons_append, List.cons.injEq] at heq
      obtain ⟨h1, h2⟩ := heq
      have hres := ih ph zs t' ph' zs' h2 (fun z hz => hclean z (by simp [hz])) hx
        (fun z hz => hclean' z (by simp [hz])) hx'
      exact ⟨by rw [h1, hres.1], hres.2.1, hres.2.2⟩

theorem exists_first_decomp (xs : List Phdr) :
    (∀ ph ∈ xs, isXSeg ph = false) ∨
      ∃ ys ph zs, xs = ys ++ ph :: zs ∧ (∀ y ∈ ys, isXSeg y = false) ∧ isXSeg ph = true := by
  induction xs with
  | nil => left; simp
  | cons x t ih =>
    by_cases hx : isXSeg x
    · right
      exact ⟨[], x, t, by simp, by simp, hx⟩
    · have hx' : isXSeg x = false := by simpa using hx
      cases ih with
      | inl h =>
        left
        intro ph hph
        rcases List.mem_cons.mp hph with h1 | h2
        · rw [h1]; exact hx'
        · exact h ph h2
      | inr h =>
        right
        obtain ⟨ys, ph, zs, he, hc, hxs⟩ := h
        refine ⟨x :: ys, ph, zs, by rw [he, List.cons_append], ?_, hxs⟩
        intro y hy
        rcases List.mem_cons.mp hy with h1 | h2
        · rw [h1]; exact hx'
        · exact hc y h2

/-- C6: the segment locator aborts exactly when the reported program header
entry size is present (nonzero) and differs from sizeof(ElfW(Phdr)), or no
loadable executable segment with nonzero memory size exists among the
reported entries, or the loader-provided load bias disagrees with the bias
probed from the PT_PHDR entries scanned before the first such segment;
otherwise it selects the first loadable, execute-flagged, nonzero-size
segment in program-header order and yields low_pc = bias + p_vaddr
(mod 2^64) and mem_size = p_memsz.  Hypotheses: the auxv values describe a
real table (nonzero address, count equal to the table length and below
2^32). -/
theorem la_locate_spec (phent phnum phdrAddr lAddr : Nat) (table : List Phdr)
    (hnum : phnum = table.length) (haddr : phdrAddr ≠ 0) (hsz : table.length < U32) :
    (la_locate phent phnum phdrAddr lAddr table = none ↔
        (phent ≠ 0 ∧ phent ≠ sizeofPhdr) ∨
          (∀ ph ∈ table, isXSeg ph = false) ∨
          (∃ ys ph zs, table = ys ++ ph :: zs ∧ (∀ y ∈ ys, isXSeg y = false) ∧
            isXSeg ph = true ∧ lAddr ≠ biasFrom phdrAddr 0 ys)) ∧
      (∀ lowpc msz, la_locate phent phnum phdrAddr lAddr table = some (lowpc, msz) →
        ∃ ys ph zs, table = ys ++ ph :: zs ∧ (∀ y ∈ ys, isXSeg y = false) ∧
          isXSeg ph = true ∧ lAddr = biasFrom phdrAddr 0 ys ∧
          lowpc = (biasFrom phdrAddr 0 ys + ph.p_vaddr) % U64 ∧ msz = ph.p_memsz) := by
  have htake : table.take phnum = table := by
    rw [hnum]
    exact List.take_length _
  by_cases hent : phent ≠ 0 ∧ phent ≠ sizeofPhdr
  · constructor
    · have hla : la_locate phent phnum phdrAddr lAddr table = none := by
        simp [la_locate, hent]
      rw [hla]
      exact iff_of_true rfl (Or.inl hent)
    · intro lowpc msz hsome
      simp [la_locate, hent] at hsome
  · rcases Nat.eq_zero_or_pos table.length with hlen0 | hlenpos
    · have htnil : table = [] := List.length_eq_zero.mp hlen0
      subst htnil
      have hph0 : phnum = 0 := by simpa using hnum
      constructor
      · have hla : la_locate phent phnum phdrAddr lAddr [] = none := by
          simp [la_locate, hent, hph0]
        rw [hla]
        exact iff_of_true rfl (Or.inr (Or.inl (by simp)))
      · intro lowpc msz hsome
        simp [la_locate, hent, hph0] at hsome
    · have hphnum : ¬(phnum = 0 ∨ U32 ≤ phnum) := by
        push_neg
        omega
      rcases exists_first_decomp table with hall | ⟨ys, ph, zs, hdec, hclean, hx⟩
      · have hfs : findSeg phdrAddr 0 (table.take phnum) = none := by
          rw [htake]
          exact (findSeg_none_iff _ _ 0).mpr hall
        have hla : la_locate phent phnum phdrAddr lAddr table = none := by
          simp [la_locate, hent, hphnum, haddr, hfs]
        constructor
        · rw [hla]
          exact iff_of_true rfl (Or.inr (Or.inl hall))
        · intro lowpc msz hsome
          rw [hla] at hsome
          cases hsome
      · have hfs : findSeg phdrAddr 0 (table.take phnum) =
            some (biasFrom phdrAddr 0 ys, (biasFrom phdrAddr 0 ys + ph.p_vaddr) % U64,
              ph.p_memsz) := by
          rw [htake, hdec]
          exact findSeg_first phdrAddr ys 0 ph zs hclean hx
        have hla : la_locate phent phnum phdrAddr lAddr table =
            if lAddr ≠ biasFrom phdrAddr 0 ys then none
            else some ((biasFrom phdrAddr 0 ys + ph.p_vaddr) % U64, ph.p_memsz) := by
          simp [la_locate, hent, hphnum, haddr, hfs]
        by_cases hmis : lAddr ≠ biasFrom phdrAddr 0 ys
        · constructor
          · rw [hla, if_pos hmis]
            exact iff_of_true rfl (Or.inr (Or.inr ⟨ys, ph, zs, hdec, hclean, hx, hmis⟩))
          · intro lowpc msz hsome
            rw [hla, if_pos hmis] at hsome
            cases hsome
        · push_neg at hmis
          constructor
          · rw [hla, if_neg (by simp [hmis])]
            apply iff_of_false
            · simp
            · rintro (h1 | h2 | h3)
              · exact hent h1
              · have : isXSeg ph = false := h2 ph (by rw [hdec]; simp)
                rw [hx] at this
                cases this
              · obtain ⟨ys', ph', zs', hdec', hclean', hx', hne'⟩ := h3
                have huniq := first_decomp_unique ys ph zs ys' ph' zs'
                  (by rw [← hdec, ← hdec']) hclean hx hclean' hx'
                rw [← huniq.1] at hne'
                exact hne' hmis
          · intro lowpc msz hsome
            rw [hla, if_neg (by simp [hmis])] at hsome
            injection hsome with hpair
            injection hpair with hpc hms
            exact ⟨ys, ph, zs, hdec, hclean, hx, hmis, hpc.symm, hms.symm⟩

/-- C6 witness: on the demo table the locator accepts the consistent load
bias 0x400000 and yields the executable segment at 0x401000 with size
8192; the theorem exhibits the decomposition around that first executable
segment. -/
theorem la_locate_witness :
    (2 : Nat) = demoTable.length ∧ (4194368 : Nat) ≠ 0 ∧ demoTable.length < U32 ∧
      (∃ ys ph zs, demoTable = ys ++ ph :: zs ∧ (∀ y ∈ ys, isXSeg y = false) ∧
        isXSeg ph = true ∧ (4194304 : Nat) = biasFrom 4194368 0 ys ∧
        (4198400 : Nat) = (biasFrom 4194368 0 ys + ph.p_vaddr) % U64 ∧
        (8192 : Nat) = ph.p_memsz) := by
  refine ⟨rfl, by decide, by decide, ?_⟩
  exact (la_locate_spec 56 2 4194368 4194304 demoTable rfl (by decide) (by decide)).2
    4198400 8192 (by decide)

/-! ## Target selector lemmas -/

theorem selectTok_ne_none_iff (fnm : List Char → List Char → Bool)
    (execfn invName retval : List Char) (ts : List (List Char)) :
    selectTok fnm execfn invName retval ts ≠ none ↔
      ∃ p ∈ ts, patMatches fnm execfn invName p = true := by
  induction ts with
  | nil => simp [selectTok]
  | cons p ps ih =>
    by_cases hp : patMatches fnm execfn invName p
    · simp [selectTok, hp]
    · have hp' : patMatches fnm execfn invName p = false := by simpa using hp
      simp [selectTok, hp', ih]

/-- C7: a pattern containing a path separator enables profiling iff it
matches (under the separator-aware matcher) the resolved execution path or
the argv[0]-derived path; a pattern without a separator enables profiling
iff it matches the base name of either; any matching pattern in the
colon-separated token list enables (the first one supplies the result);
and an absent SP_PROFILE variable yields disabled with no error. -/
theorem match_program_name_spec (fnm : List Char → List Char → Bool)
    (env : Option (List Char)) (execfn invName : List Char) :
    (env = none → match_program_name fnm env execfn invName = none) ∧
      (∀ e, env = some e →
        (match_program_name fnm env execfn invName ≠ none ↔
          ∃ p ∈ tokensOf e,
            ('/' ∈ p ∧ (fnm p execfn = true ∨ fnm p invName = true)) ∨
            ('/' ∉ p ∧ (fnm p (gnuBasename execfn) = true ∨
              fnm p (gnuBasename invName) = true)))) := by
  constructor
  · intro h
    rw [h]
    rfl
  · intro e he
    rw [he]
    show selectTok fnm execfn invName (gnuBasename execfn) (tokensOf e) ≠ none ↔ _
    rw [selectTok_ne_none_iff]
    apply exists_congr
    intro p
    apply and_congr_right
    intro _
    by_cases hs : '/' ∈ p
    · simp [patMatches, hs]
    · simp [patMatches, hs]

/-- C7 witness: with the pattern list "ls" and a matcher that tests literal
equality, the invocation /bin/ls (argv[0] /usr/bin/ls) is enabled via the
base-name rule, and an absent variable disables profiling. -/
theorem match_program_name_witness :
    match_program_name eqFnm (some ['l', 's']) ['/', 'b', 'i', 'n', '/', 'l', 's']
        ['/', 'u', 's', 'r', '/', 'b', 'i', 'n', '/', 'l', 's'] ≠ none ∧
      match_program_name eqFnm none ['/', 'b', 'i', 'n', '/', 'l', 's']
        ['/', 'u', 's', 'r', '/', 'b', 'i', 'n', '/', 'l', 's'] = none := by
  constructor
  · exact ((match_program_name_spec eqFnm (some ['l', 's'])
      ['/', 'b', 'i', 'n', '/', 'l', 's']
      ['/', 'u', 's', 'r', '/', 'b', 'i', 'n', '/', 'l', 's']).2 ['l', 's'] rfl).mpr
      ⟨['l', 's'], by decide, Or.inr ⟨by decide, Or.inl (by decide)⟩⟩
  · exact (match_program_name_spec eqFnm none ['/', 'b', 'i', 'n', '/', 'l', 's']
      ['/', 'u', 's', 'r', '/', 'b', 'i', 'n', '/', 'l', 's']).1 rfl

/-! ## Scale override lemmas -/

theorem isScanfWs_of_digit (c : Nat) (h : isDigitByte c = true) : isScanfWs c = false := by
  simp only [isDigitByte, Bool.and_eq_true, decide_eq_true_eq] at h
  simp only [isScanfWs, Bool.or_eq_false_iff, Bool.and_eq_false_iff]
  constructor
  · simp only [beq_eq_false_iff_ne, ne_eq]
    omega
  · right
    simp only [decide_eq_false_iff_not]
    omega

/-- C8 counterexample: the value "131073" parses as a positive integer with
no trailing garbage, yet the bootstrap aborts, because the derived sampler
scale 65536*2/131073 is zero; so "abort iff unparsable or zero" is false. -/
theorem scaleOverride_rejects_parsable :
    specPosIntValue [49, 51, 49, 48, 55, 51] = some 131073 ∧
      (131073 : Nat) ≠ 0 ∧
      scaleOverride [49, 51, 49, 48, 55, 51] = none := by
  exact ⟨by decide, by decide, by decide⟩

/-- C8 (amended): when SP_SCALE is present the bootstrap aborts iff the
value fails the sscanf("%u %c") conversion (no number, or trailing
non-whitespace garbage), converts to zero, or converts to a value above
65536*2 = 131072 (so that the derived sampler scale 131072/value is zero);
every converted value v with 1 <= v <= 131072 proceeds with sampler scale
131072 / v in place of the default; and every nonempty all-digit string
with value below 2^32 converts to exactly that value. -/
theorem scaleOverride_spec (cs : List Nat) :
    (scaleOverride cs = none ↔
        sscanfScale cs = none ∨ sscanfScale cs = some 0 ∨
          ∃ v, sscanfScale cs = some v ∧ 131072 < v) ∧
      (∀ v, sscanfScale cs = some v → 0 < v → v ≤ 131072 →
        scaleOverride cs = some (131072 / v)) ∧
      (∀ ds : List Nat, ds ≠ [] → ds.all isDigitByte = true → digitsVal ds < U32 →
        sscanfScale ds = some (digitsVal ds)) := by
  have hS : 65536 * sizeofShort = 131072 := by norm_num [sizeofShort]
  refine ⟨?_, ?_, ?_⟩
  · cases hc : sscanfScale cs with
    | none => simp [scaleOverride, hc]
    | some v =>
      simp only [scaleOverride, hc, hS]
      by_cases hv0 : v = 0
      · subst hv0
        simp
      · rw [if_neg hv0]
        by_cases hdiv : 131072 / v = 0
        · rw [if_pos hdiv]
          have hlt : 131072 < v := (Nat.div_eq_zero_iff (Nat.pos_of_ne_zero hv0)).mp hdiv
          exact iff_of_true rfl (Or.inr (Or.inr ⟨v, rfl, hlt⟩))
        · rw [if_neg hdiv]
          apply iff_of_false
          · simp
          · rintro (h1 | h2 | ⟨v', heq, hlt⟩)
            · cases h1
            · exact hv0 (Option.some.inj h2)
            · rw [Option.some.inj heq] at hdiv
              exact hdiv (Nat.div_eq_of_lt hlt)
  · intro v hv h0 hle
    simp only [scaleOverride, hv, hS]
    rw [if_neg (by omega), if_neg (by have := Nat.div_pos hle h0; omega)]
  · intro ds hne hall hlt
    obtain ⟨c, t, hct⟩ := List.exists_cons_of_ne_nil hne
    have hallP : ∀ x ∈ ds, isDigitByte x = true := List.all_eq_true.mp hall
    have hdrop : dropWsL ds = ds := by
      rw [hct]
      show dropWsL (c :: t) = c :: t
      have hcdig : isDigitByte c = true := hallP c (by rw [hct]; simp)
      simp [dropWsL, isScanfWs_of_digit c hcdig]
    have hheadd : isDigitByte (ds.headD 0) = true := by
      rw [hct]
      exact hallP c (by rw [hct]; simp)
    have hhead45 : ds.headD 0 ≠ 45 := by
      simp only [isDigitByte, Bool.and_eq_true, decide_eq_true_eq] at hheadd
      omega
    have hhead43 : ds.headD 0 ≠ 43 := by
      simp only [isDigitByte, Bool.and_eq_true, decide_eq_true_eq] at hheadd
      omega
    have htw : ds.takeWhile isDigitByte = ds := List.takeWhile_eq_self_iff.mpr hallP
    have hdw : ds.dropWhile isDigitByte = [] := List.dropWhile_eq_nil_iff.mpr hallP
    have hneg : (ds.headD 0 == 45) = false := by
      simpa using hhead45
    have hmin : min (digitsVal ds) (U64 - 1) = digitsVal ds := by
      apply Nat.min_eq_left
      have : U32 < U64 - 1 := by norm_num [U32, U64]
      omega
    have hmod : digitsVal ds % U32 = digitsVal ds := Nat.mod_eq_of_lt hlt
    have hsign : (if ds.headD 0 = 45 ∨ ds.headD 0 = 43 then ds.tail else ds) = ds := by
      rw [if_neg]
      push_neg
      exact ⟨hhead45, hhead43⟩
    simp only [sscanfScale, scanfU, hdrop, hneg, Bool.false_eq_true, if_false, hsign]
    rw [htw, hdw, if_neg hne, hmin, hmod]
    simp [dropWsL]

/-- C8 witness: SP_SCALE = "64" converts to 64 and the bootstrap proceeds
with the derived sampler scale 131072/64 = 2048 in place of the default. -/
theorem scaleOverride_witness :
    sscanfScale [54, 52] = some 64 ∧ scaleOverride [54, 52] = some 2048 := by
  constructor
  · decide
  · exact (scaleOverride_spec [54, 52]).2.1 64 (by decide) (by decide) (by decide)

/-! ## Profile store theorems -/

/-- C1: for every pre-existing profile file (fstat succeeded and observed
size nonzero): if the size differs from total_mapped_size the bootstrap
aborts emitting the size-mismatch diagnostic, with no mmap, no
pre-allocation and no write; if the size matches but the first header-size
bytes differ from the freshly built header, the bootstrap aborts without
modifying any byte of the file (no header write, no pre-allocation, and
sampling is never activated into the mapping). -/
theorem profileStore_preexisting_spec (o : StoreOracle) (mapsiz : Nat) (header : List Nat)
    (hst : o.fstatOk = true) (hne : o.fileSize ≠ 0) :
    (o.fileSize ≠ mapsiz →
        profileStoreRun o mapsiz header = (false, [StoreEv.diagSizeMismatch, StoreEv.close])) ∧
      (o.fileSize = mapsiz → o.fileBytes.take header.length ≠ header →
        (profileStoreRun o mapsiz header).1 = false ∧
          StoreEv.writeHeader ∉ (profileStoreRun o mapsiz header).2 ∧
          StoreEv.falloc ∉ (profileStoreRun o mapsiz header).2 ∧
          StoreEv.profilEv ∉ (profileStoreRun o mapsiz header).2) := by
  constructor
  · intro hmis
    simp [profileStoreRun, hst, hne, hmis]
  · intro hsz hhdr
    have hm0 : mapsiz ≠ 0 := hsz ▸ hne
    by_cases hmm : o.mmapOk
    · simp [profileStoreRun, hst, hne, hsz, hm0, hmm, hhdr]
    · have hmm' : o.mmapOk = false := by simpa using hmm
      simp [profileStoreRun, hst, hne, hsz, hm0, hmm']

/-- C1 witness: a pre-existing 50-byte file when 104 bytes are expected
aborts with the size-mismatch diagnostic and only closes the descriptor. -/
theorem profileStore_preexisting_witness :
    ({ fstatOk := true, fileSize := 50, fileBytes := [], fallocOk := true,
       mmapOk := true, profilOk := true } : StoreOracle).fileSize ≠ 0 ∧
      profileStoreRun
        { fstatOk := true, fileSize := 50, fileBytes := [], fallocOk := true,
          mmapOk := true, profilOk := true } 104 [1, 2, 3] =
        (false, [StoreEv.diagSizeMismatch, StoreEv.close]) := by
  refine ⟨by decide, ?_⟩
  exact (profileStore_preexisting_spec
    { fstatOk := true, fileSize := 50, fileBytes := [], fallocOk := true,
      mmapOk := true, profilOk := true } 104 [1, 2, 3] rfl (by decide)).1 (by decide)

/-- C9: on every path of the store phase after the file is opened the
descriptor is closed exactly once (including the success path, which keeps
only the mapping), and on every failing path on which the mapping was
established the mapping is unmapped. -/
theorem profileStore_releases_resources (o : StoreOracle) (mapsiz : Nat) (header : List Nat) :
    (profileStoreRun o mapsiz header).2.count StoreEv.close = 1 ∧
      ((profileStoreRun o mapsiz header).1 = false →
        StoreEv.mmapEv ∈ (profileStoreRun o mapsiz header).2 →
        StoreEv.munmapEv ∈ (profileStoreRun o mapsiz header).2) := by
  unfold profileStoreRun
  split_ifs <;> simp [List.count_cons, List.count_nil]

/-- C9 witness: when sampling activation fails after a fresh file was
allocated, written and mapped, the trace closes the descriptor once and
unmaps the established mapping. -/
theorem profileStore_releases_witness :
    (profileStoreRun
        { fstatOk := true, fileSize := 0, fileBytes := [], fallocOk := true,
          mmapOk := true, profilOk := false } 104 [1]).2.count StoreEv.close = 1 ∧
      StoreEv.munmapEv ∈ (profileStoreRun
        { fstatOk := true, fileSize := 0, fileBytes := [], fallocOk := true,
          mmapOk := true, profilOk := false } 104 [1]).2 := by
  constructor
  · exact (profileStore_releases_resources
      { fstatOk := true, fileSize := 0, fileBytes := [], fallocOk := true,
        mmapOk := true, profilOk := false } 104 [1]).1
  · exact (profileStore_releases_resources
      { fstatOk := true, fileSize := 0, fileBytes := [], fallocOk := true,
        mmapOk := true, profilOk := false } 104 [1]).2 rfl (by decide)

/-! ## Diagnostic sink escaping (C10) -/

/-- C10: the claim that the sizing-mode call (null destination) performs no
memory store is contradicted by the code: for src = "a" with length limit 0
(escape mode off) the truncation suffix "..." at eprintf.c lines 147-153 is
stored unconditionally, so the sizing-mode call performs three stores - in
the C original these go through the null destination pointer.  Every other
store in the function is guarded by if (dst). -/
theorem my_strvis_sizing_mode_stores :
    (my_strvis false false (some [97]) 0).2 = [(2, 46), (3, 46), (4, 46)] ∧
      (my_strvis false false (some [97]) 0).2 ≠ [] := by
  exact ⟨by decide, by decide⟩

end SimpleProf
